import Mathlib

/-!
Shallow embedding of the geocoding enrichment pipeline implemented in
`src/functions/scripts/create-csv-database/create-csv-database.js`.

The JavaScript source is modelled as follows:
* JS strings are Lean `String`s; JS string helpers (`trim`, `toUpperCase`,
  `toLowerCase`, `includes`, `startsWith`) are re-implemented over the
  character-list model so that they are transparent to proofs.
* JS numbers used for scoring (`importance`) are modelled as exact
  rationals (`Rat`); all other numbers in the script are integral and are
  modelled as `Nat`.
* Absent/undefined JS string fields are modelled as the empty string,
  which coincides with JS truthiness checks (`x && ...`) on them.
* The stateful per-row loop of `main` is modelled as a fold over the row
  list, and the wall clock (only advanced by sleeps and network latency in
  the script) is modelled as an explicit `Nat` timestamp threaded through
  a timed variant of the transport and ladder.
-/

namespace CreateCsv

/-! ### JS string primitives -/

/-- Characters of `s.toUpperCase()`. -/
def upperChars (s : String) : List Char := s.data.map Char.toUpper

/-- `s.toLowerCase()`. -/
def jsLower (s : String) : String := String.mk (s.data.map Char.toLower)

/-- `l` with leading and trailing whitespace removed; model of `String.prototype.trim`. -/
def trimChars (l : List Char) : List Char :=
  ((l.dropWhile Char.isWhitespace).reverse.dropWhile Char.isWhitespace).reverse

/-- Does the character list start with the pattern? Helper for `includes`. -/
def charsStartWith : List Char → List Char → Bool
  | _, [] => true
  | [], _ :: _ => false
  | a :: as, b :: bs => a == b && charsStartWith as bs

/-- Does the character list contain the pattern as a contiguous run? -/
def charsContain : List Char → List Char → Bool
  | [], pat => pat.isEmpty
  | a :: as, pat => charsStartWith (a :: as) pat || charsContain as pat

/-- Model of JS `s.includes(pat)`. -/
def strContains (s pat : String) : Bool := charsContain s.data pat.data

/-- Model of JS `s.startsWith(pre)` (argument order: string, then the pattern). -/
def strStarts (s pat : String) : Bool := charsStartWith s.data pat.data

/-- JS `list.filter(Boolean)[0] ?? ''`-style first truthy string, as used by
`addr.city || addr.town || addr.municipality || addr.county || ''`. -/
def firstTruthy : List String → String
  | [] => ""
  | s :: rest => if s = "" then firstTruthy rest else s

/-! ### Constants of the script (lines 31-40) -/

def ONE_SECOND_MS : Nat := 1000
def MAX_RETRIES : Nat := 5

def WHITELIST_TYPES : List String :=
  ["postcode", "neighbourhood", "suburb", "residential", "city_district", "quarter",
   "hamlet", "village", "town", "locality", "administrative"]

def WHITELIST_CLASSES : List String := ["place", "boundary", "addr"]

def BLACKLIST_CLASSES : List String := ["highway", "railway", "shop", "amenity", "office"]

/-! ### Data model -/

/-- The `address` sub-object of a Nominatim candidate.  Absent fields are `""`. -/
structure NomAddress where
  postcode : String := ""
  postal_code : String := ""
  state : String := ""
  city : String := ""
  town : String := ""
  municipality : String := ""
  county : String := ""
deriving DecidableEq, Inhabited, Repr

/-- One Nominatim result row.  `cls` embeds the JS field `class` (a Lean
keyword); `importance` embeds the JS number `importance` (absent = 0, matching
`c.importance || 0`). -/
structure Candidate where
  lat : String := ""
  lon : String := ""
  type : String := ""
  cls : String := ""
  importance : Rat := 0
  address : NomAddress := {}
deriving DecidableEq, Inhabited

/-- One normalized input row (the 15 `headerMap` fields, lines 43-59). -/
structure Row where
  postalCode : String := ""
  settlement : String := ""
  settlementType : String := ""
  municipality : String := ""
  state : String := ""
  city : String := ""
  postalCodeAlt : String := ""
  stateCode : String := ""
  officeCode : String := ""
  postalCodeKey : String := ""
  settlementTypeCode : String := ""
  municipalityCode : String := ""
  settlementIdCpcons : String := ""
  zone : String := ""
  cityCode : String := ""
deriving DecidableEq, Inhabited

/-- The value returned by `geocodeWithFallback` (lines 268-318). -/
structure Geo where
  lat : String
  lon : String
  geocodeSource : String
  geocodeNote : String
deriving DecidableEq, Inhabited

/-- One output CSV record (`outputColumns`, lines 61-66). -/
structure OutRec where
  postalCode : String := ""
  settlement : String := ""
  settlementType : String := ""
  municipality : String := ""
  state : String := ""
  city : String := ""
  postalCodeAlt : String := ""
  stateCode : String := ""
  officeCode : String := ""
  postalCodeKey : String := ""
  settlementTypeCode : String := ""
  municipalityCode : String := ""
  settlementIdCpcons : String := ""
  zone : String := ""
  cityCode : String := ""
  lat : String := ""
  lon : String := ""
  geocodeSource : String := ""
  geocodeNote : String := ""
  confidence : String := ""
  missReason : String := ""
  precision : Nat := 0
deriving DecidableEq, Inhabited

/-! ### Candidate picking and scoring (lines 228-265) -/

/-- `candidate.address && (candidate.address.postcode || candidate.address.postal_code)`. -/
def addrPostcodeOf (c : Candidate) : String :=
  if c.address.postcode = "" then c.address.postal_code else c.address.postcode

/-- Embeds `isGoodCPMatch` (lines 229-235). -/
def isGoodCPMatch (cp : String) (c : Candidate) : Bool :=
  if c.type = "postcode" then true
  else if cp ≠ "" ∧ addrPostcodeOf c ≠ "" ∧ cp = addrPostcodeOf c then true
  else false

/-- The lower-cased municipality-like address field of a candidate
(`addr.city || addr.town || addr.municipality || addr.county || ''`, line 246). -/
def muniOf (c : Candidate) : String :=
  jsLower (firstTruthy [c.address.city, c.address.town, c.address.municipality, c.address.county])

/-- The score accumulated for one candidate in the loop body of
`pickBestGeneric` (lines 249-252). -/
def candScore (wantMuni : String) (c : Candidate) : Rat :=
  c.importance * 10
    + (if WHITELIST_TYPES.contains c.type then 12 else 0)
    + (if WHITELIST_CLASSES.contains c.cls then 6 else 0)
    + (if wantMuni ≠ "" ∧ strContains (muniOf c) wantMuni then 6 else 0)

/-- The loop of `pickBestGeneric` (lines 241-255).  The JS accumulator pair
`best = null, bestScore = -Infinity` is modelled by `none` (any finite first
score beats `-Infinity`); `score > bestScore` is the strict comparison, so an
earlier candidate is kept on ties. -/
def pickGo (wantMuni : String) : List Candidate → Option (Candidate × Rat) → Option (Candidate × Rat)
  | [], best => best
  | c :: rest, best =>
    if c.address.state ≠ "" ∧ jsLower c.address.state ≠ "jalisco" then
      pickGo wantMuni rest best
    else
      let score := candScore wantMuni c
      match best with
      | none => pickGo wantMuni rest (some (c, score))
      | some (b, bs) =>
        if bs < score then pickGo wantMuni rest (some (c, score))
        else pickGo wantMuni rest (some (b, bs))

/-- Embeds `pickBestGeneric` (lines 238-257).  The `postalCode` parameter is
unused in the source body and kept for signature fidelity. -/
def pickBestGeneric (postalCode municipality : String) (candidates : List Candidate) : Option Candidate :=
  let wantMuni := jsLower municipality
  let pool := candidates.filter (fun c => !(BLACKLIST_CLASSES.contains c.cls))
  (pickGo wantMuni pool none).map Prod.fst

/-- Whether a candidate passes the state filter inside the loop of
`pickBestGeneric` (the negation of the `continue` condition, line 247). -/
def stateKeep (c : Candidate) : Bool :=
  decide (¬ (c.address.state ≠ "" ∧ jsLower c.address.state ≠ "jalisco"))

/-- The candidates of a response that survive both filters of
`pickBestGeneric`: the class blacklist (line 240) and the state check
(line 247), in response order. -/
def survivors (candidates : List Candidate) : List Candidate :=
  (candidates.filter (fun c => !(BLACKLIST_CLASSES.contains c.cls))).filter stateKeep

/-- Embeds `confidenceTag` (lines 259-265). -/
def confidenceTag (source note : String) : String :=
  if strStarts source "nominatim_cp" = true ∧ note = "postcode" then "exact_postcode"
  else if source = "nominatim_freetext" ∨ source = "nominatim_freetext_cp" then "text_locality"
  else if source = "nominatim_municipality" then "municipality_fallback"
  else if note = "no_result" then "no_result"
  else "unknown"

/-- The `precisionMap` lookup with its `?? 0` default (lines 339-340). -/
def precisionMap (confidence : String) : Nat :=
  if confidence = "exact_postcode" then 3
  else if confidence = "text_locality" then 2
  else if confidence = "municipality_fallback" then 1
  else if confidence = "no_result" then 0
  else 0

/-! ### The strategy ladder (lines 268-318) -/

/-- What `nominatimFetch` hands back to the ladder: `{ ok, status, data }`. -/
structure FetchResult where
  ok : Bool
  status : Nat
  data : List Candidate
deriving DecidableEq, Inhabited

/-- Which acceptance rule a ladder step uses: `.cpExact` for the five
`isGoodCPMatch`-based steps A0a-A3, `.generic` for the three
`pickBestGeneric`-based steps B1, B2, C. -/
inductive AcceptMode where
  | cpExact
  | generic
deriving DecidableEq, Inhabited

/-- One rung of the ladder: its `geocodeSource` tag, its acceptance mode, and
whether `row.postalCode` (rather than `''`, step C line 314) is passed to the
selector. -/
structure StrategySpec where
  source : String
  mode : AcceptMode
  cpArg : Bool
deriving DecidableEq, Inhabited

/-- The eight strategies of `geocodeWithFallback`, in source order. -/
def theStrategies : List StrategySpec :=
  [⟨"nominatim_cp_only_bias", .cpExact, true⟩,
   ⟨"nominatim_cp_only", .cpExact, true⟩,
   ⟨"nominatim_cp_city", .cpExact, true⟩,
   ⟨"nominatim_cp_county", .cpExact, true⟩,
   ⟨"nominatim_cp_freetext", .cpExact, true⟩,
   ⟨"nominatim_freetext", .generic, true⟩,
   ⟨"nominatim_freetext_cp", .generic, true⟩,
   ⟨"nominatim_municipality", .generic, false⟩]

/-- The `Geo` built from an accepted candidate:
`{ lat, lon, geocodeSource, geocodeNote: c.type || 'ok' }`. -/
def mkGeo (source : String) (c : Candidate) : Geo :=
  ⟨c.lat, c.lon, source, if c.type = "" then "ok" else c.type⟩

/-- The `Geo` returned when the whole ladder is exhausted (line 317). -/
def noResultGeo : Geo := ⟨"", "", "nominatim", "no_result"⟩

/-- One ladder step applied to the `FetchResult` of its fetch:
`if (r.ok && r.data.length) { const pick = ...; if (pick) return {...} }`. -/
def attemptStrategy (row : Row) (s : StrategySpec) (r : FetchResult) : Option Geo :=
  if r.ok = true ∧ r.data ≠ [] then
    match s.mode with
    | .cpExact => (r.data.find? (isGoodCPMatch row.postalCode)).map (mkGeo s.source)
    | .generic =>
      (pickBestGeneric (if s.cpArg then row.postalCode else "") row.municipality r.data).map
        (mkGeo s.source)
  else none

/-- The ladder walk of `geocodeWithFallback`: try each remaining strategy in
order against its fetch result (`resps i` is what `nominatimFetch` returned for
the `i`-th strategy of this row) and return at the first accepted candidate. -/
def ladderGo (row : Row) (resps : Nat → FetchResult) : List StrategySpec → Nat → Geo
  | [], _ => noResultGeo
  | s :: rest, i =>
    match attemptStrategy row s (resps i) with
    | some g => g
    | none => ladderGo row resps rest (i + 1)

/-- How many fetches the ladder walk issues (one per strategy tried). -/
def ladderCount (row : Row) (resps : Nat → FetchResult) : List StrategySpec → Nat → Nat
  | [], _ => 0
  | s :: rest, i =>
    match attemptStrategy row s (resps i) with
    | some _ => 1
    | none => 1 + ladderCount row resps rest (i + 1)

/-- Embeds `geocodeWithFallback` (lines 268-318), with the per-strategy fetch
results supplied as an oracle `resps`. -/
def geocodeWithFallback (row : Row) (resps : Nat → FetchResult) : Geo :=
  ladderGo row resps theStrategies 0

/-- Number of strategy-level HTTP fetches `geocodeWithFallback` issues. -/
def ladderRequests (row : Row) (resps : Nat → FetchResult) : Nat :=
  ladderCount row resps theStrategies 0

/-! ### Resume key (lines 22-25, 85-107) -/

/-- The `parts.join('|')` character list for the default
`RESUME_KEY_FIELDS = postalCode|settlement|municipality|settlementIdCpcons`,
each part upper-cased (line 86). -/
def keyParts (postalCode settlement municipality settlementIdCpcons : String) : List Char :=
  upperChars postalCode ++ '|' :: upperChars settlement
    ++ '|' :: upperChars municipality ++ '|' :: upperChars settlementIdCpcons

/-- Embeds the `JSON.stringify(row)` fallback of `makeResumeKey` (line 88).
With the default four resume-key fields the joined key always contains `'|'`
and is never empty after trimming, so this branch is unreachable; it is still
modelled so that `makeResumeKey` is total on arbitrary rows. -/
def jsonStringify (row : Row) : String :=
  "\x7b\"postalCode\":\"" ++ row.postalCode
    ++ "\",\"settlement\":\"" ++ row.settlement
    ++ "\",\"settlementType\":\"" ++ row.settlementType
    ++ "\",\"municipality\":\"" ++ row.municipality
    ++ "\",\"state\":\"" ++ row.state
    ++ "\",\"city\":\"" ++ row.city
    ++ "\",\"postalCodeAlt\":\"" ++ row.postalCodeAlt
    ++ "\",\"stateCode\":\"" ++ row.stateCode
    ++ "\",\"officeCode\":\"" ++ row.officeCode
    ++ "\",\"postalCodeKey\":\"" ++ row.postalCodeKey
    ++ "\",\"settlementTypeCode\":\"" ++ row.settlementTypeCode
    ++ "\",\"municipalityCode\":\"" ++ row.municipalityCode
    ++ "\",\"settlementIdCpcons\":\"" ++ row.settlementIdCpcons
    ++ "\",\"zone\":\"" ++ row.zone
    ++ "\",\"cityCode\":\"" ++ row.cityCode ++ "\"\x7d"

/-- Embeds `makeResumeKey` (lines 85-89) at the default `RESUME_KEY_FIELDS`. -/
def makeResumeKey (row : Row) : String :=
  let key := String.mk (trimChars
    (keyParts row.postalCode row.settlement row.municipality row.settlementIdCpcons))
  if key = "" then jsonStringify row else key

/-- The resume key computed for an already-written output row inside
`readAlreadyProcessedKeys` (line 100): same fields, same normalization. -/
def outputKey (o : OutRec) : String :=
  String.mk (trimChars
    (keyParts o.postalCode o.settlement o.municipality o.settlementIdCpcons))

/-- Embeds `readAlreadyProcessedKeys` (lines 91-107): the keys of all existing
output rows having both coordinates populated (JS truthiness: non-empty
strings), keeping only non-empty keys. -/
def readAlreadyProcessedKeys (outRows : List OutRec) : List String :=
  outRows.filterMap (fun o =>
    if o.lat ≠ "" ∧ o.lon ≠ "" then
      if outputKey o ≠ "" then some (outputKey o) else none
    else none)

/-! ### Output records (lines 321-343) and the per-row loop (lines 390-431) -/

/-- Embeds `normalizeRowForOutput` (lines 329-343). -/
def normalizeRowForOutput (row : Row) (geo : Geo) : OutRec :=
  let confidence := confidenceTag geo.geocodeSource geo.geocodeNote
  { postalCode := row.postalCode, settlement := row.settlement,
    settlementType := row.settlementType, municipality := row.municipality,
    state := row.state, city := row.city, postalCodeAlt := row.postalCodeAlt,
    stateCode := row.stateCode, officeCode := row.officeCode,
    postalCodeKey := row.postalCodeKey, settlementTypeCode := row.settlementTypeCode,
    municipalityCode := row.municipalityCode, settlementIdCpcons := row.settlementIdCpcons,
    zone := row.zone, cityCode := row.cityCode,
    lat := geo.lat, lon := geo.lon,
    geocodeSource := geo.geocodeSource, geocodeNote := geo.geocodeNote,
    confidence := confidence,
    missReason :=
      if confidence = "municipality_fallback" ∨ confidence = "no_result" then geo.geocodeNote
      else "",
    precision := precisionMap confidence }

/-- The record written by the `catch` block of the row loop (lines 423-428):
`normalizeRowForOutput(row, {lat:'', lon:'', geocodeSource:'nominatim',
geocodeNote:`error_${msg}`})` with `confidence`, `missReason`, `precision`
overridden. -/
def errorOut (row : Row) (msg : String) : OutRec :=
  let out := normalizeRowForOutput row ⟨"", "", "nominatim", "error_" ++ msg⟩
  { out with confidence := "no_result", missReason := out.geocodeNote, precision := 0 }

/-- One input row together with the behaviour of the outside world while it is
processed: `resps i` is the `FetchResult` the transport returns for the row's
`i`-th strategy fetch, and `exc = some msg` models `geocodeWithFallback`
throwing an exception with message `msg`. -/
structure RowInput where
  row : Row
  resps : Nat → FetchResult
  exc : Option String

/-- What the row loop did for one row. -/
inductive RowTrace where
  | skipMissingMuni
  | skipResume
  | ok (out : OutRec) (nRequests : Nat)
  | err (out : OutRec)
deriving DecidableEq, Inhabited

/-- The body of the row loop (lines 393-431) for one row: the
missing-municipality guard, the resume-key guard, then either the normal write
path or the `catch` write path. -/
def processRow (doneKeys : List String) (ri : RowInput) : RowTrace :=
  if ri.row.municipality = "" then .skipMissingMuni
  else if makeResumeKey ri.row ∈ doneKeys then .skipResume
  else
    match ri.exc with
    | some msg => .err (errorOut ri.row msg)
    | none =>
      .ok (normalizeRowForOutput ri.row (geocodeWithFallback ri.row ri.resps))
        (ladderRequests ri.row ri.resps)

/-- Lines appended to the full-results stream for one row trace. -/
def traceFull : RowTrace → List OutRec
  | .ok out _ => [out]
  | .err out => [out]
  | .skipMissingMuni => []
  | .skipResume => []

/-- Lines appended to the misses stream for one row trace (line 417 for normal
rows; the `catch` block always writes to both streams). -/
def traceMiss : RowTrace → List OutRec
  | .ok out _ =>
    if out.confidence = "municipality_fallback" ∨ out.confidence = "no_result" then [out] else []
  | .err out => [out]
  | .skipMissingMuni => []
  | .skipResume => []

/-- Strategy-level HTTP fetches issued for one row trace (skipped rows issue
none; the count of a row that threw mid-processing is not modelled and reports
0). -/
def traceRequests : RowTrace → Nat
  | .ok _ n => n
  | _ => 0

/-- The mutable counters and the two output streams of `main`. -/
structure LoopState where
  full : List OutRec
  miss : List OutRec
  processed : Nat
  skipped : Nat
  errors : Nat
deriving DecidableEq, Inhabited

/-- One iteration of the row loop acting on the loop state. -/
def stepRow (doneKeys : List String) (st : LoopState) (ri : RowInput) : LoopState :=
  match processRow doneKeys ri with
  | .skipMissingMuni => { st with skipped := st.skipped + 1 }
  | .skipResume => { st with skipped := st.skipped + 1 }
  | .ok out n =>
    { st with full := st.full ++ [out],
              miss := st.miss ++ traceMiss (.ok out n),
              processed := st.processed + 1 }
  | .err out =>
    { st with full := st.full ++ [out], miss := st.miss ++ [out],
              errors := st.errors + 1 }

/-- The whole row loop: `doneKeys` is computed once before the loop (line 383)
and never changes while the loop runs. -/
def runRows (doneKeys : List String) (st : LoopState) : List RowInput → LoopState
  | [] => st
  | ri :: rest => runRows doneKeys (stepRow doneKeys st ri) rest

/-- Lines the full stream receives for a row list. -/
def flatFull (doneKeys : List String) : List RowInput → List OutRec
  | [] => []
  | ri :: rest => traceFull (processRow doneKeys ri) ++ flatFull doneKeys rest

/-- Lines the misses stream receives for a row list. -/
def flatMiss (doneKeys : List String) : List RowInput → List OutRec
  | [] => []
  | ri :: rest => traceMiss (processRow doneKeys ri) ++ flatMiss doneKeys rest

/-- Embeds `createCsvWriter` (lines 321-327): append mode iff the file already
exists, header written iff it does not. -/
structure CsvWriterCfg where
  appendMode : Bool
  header : Bool
deriving DecidableEq, Inhabited

/-- `flags: exists ? 'a' : 'w'`, `stringify({ header: !exists })`. -/
def createCsvWriter (fileAlreadyExists : Bool) : CsvWriterCfg :=
  ⟨fileAlreadyExists, !fileAlreadyExists⟩

/-! ### The rate-limited transport, `nominatimFetch` (lines 110-134) -/

/-- One raw HTTP response: its status, the parsed `Retry-After` header
(`parseInt(res.headers.get('retry-after') || '0', 10)`, where an absent or
unparsable header yields a falsy value, modelled as 0), and the parsed JSON
body (already coerced to `[]` when not an array, line 133). -/
structure HttpResp where
  status : Nat
  retryAfter : Nat
  body : List Candidate
deriving DecidableEq, Inhabited

/-- `res.status === 429 || res.status === 403` (line 112). -/
def isThrottle (r : HttpResp) : Prop := r.status = 429 ∨ r.status = 403

instance (r : HttpResp) : Decidable (isThrottle r) := by unfold isThrottle; infer_instance

/-- `res.ok`: status in the 200-299 range. -/
def isOkStatus (r : HttpResp) : Prop := 200 ≤ r.status ∧ r.status ≤ 299

instance (r : HttpResp) : Decidable (isOkStatus r) := by unfold isOkStatus; infer_instance

/-- The 429/403 backoff (lines 113-115): `retryAfter ? retryAfter * 1000 :
Math.min(30000, 2 ** attempt * 1000) + jitter` with `jitter < 500`. -/
def throttleBackoff (retryAfter attempt jit : Nat) : Nat :=
  if retryAfter ≠ 0 then retryAfter * 1000 else min 30000 (2 ^ attempt * 1000) + jit

/-- The other-error backoff (line 125): `Math.min(20000, 2 ** attempt * 500) +
jitter` with `jitter < 300`. -/
def errorBackoff (attempt jit : Nat) : Nat := min 20000 (2 ^ attempt * 500) + jit

/-- The recursion of `nominatimFetch` (lines 110-134), made structural on the
remaining retry budget `gas` (the JS recursion increments `attempt` and stops
once `attempt > MAX_RETRIES`, so `gas = MAX_RETRIES + 1 - attempt` in every
reachable call; the `gas = 0` case performs the final fetch and never
retries, exactly what the JS code does once `attempt > MAX_RETRIES`).
`responses n` is the raw response to the `n`-th attempt, `jitter n` the value
of `Math.floor(Math.random() * _)` used in its backoff.  Returns the
`FetchResult` handed to the caller and the list of backoff sleeps performed,
in order. -/
def goFetch (responses : Nat → HttpResp) (jitter : Nat → Nat) :
    Nat → Nat → FetchResult × List Nat
  | 0, attempt =>
    let res := responses attempt
    if isThrottle res then (⟨false, res.status, []⟩, [])
    else if ¬ isOkStatus res then (⟨false, res.status, []⟩, [])
    else (⟨true, 200, res.body⟩, [])
  | g + 1, attempt =>
    let res := responses attempt
    if isThrottle res then
      if attempt ≤ MAX_RETRIES then
        let backoff := throttleBackoff res.retryAfter attempt (jitter attempt)
        let r := goFetch responses jitter g (attempt + 1)
        (r.1, backoff :: r.2)
      else (⟨false, res.status, []⟩, [])
    else if ¬ isOkStatus res then
      if attempt ≤ MAX_RETRIES then
        let backoff := errorBackoff attempt (jitter attempt)
        let r := goFetch responses jitter g (attempt + 1)
        (r.1, backoff :: r.2)
      else (⟨false, res.status, []⟩, [])
    else (⟨true, 200, res.body⟩, [])

/-- Embeds `nominatimFetch(url, attempt)`: the call that the script reaches
with attempt counter `attempt` (strategies call it with `attempt = 1`). -/
def nominatimFetch (responses : Nat → HttpResp) (jitter : Nat → Nat) (attempt : Nat) :
    FetchResult × List Nat :=
  goFetch responses jitter (MAX_RETRIES + 1 - attempt) attempt

/-! ### Timed model

The wall clock is a `Nat` (milliseconds).  Time advances only while waiting
for a response (`latency`) or sleeping (rate-limit wait, retry backoff) —
computation itself is instantaneous.  Request start times are recorded in
order of issue. -/

/-- Result of a timed `nominatimFetch` call: the `FetchResult`, the start
times of all HTTP requests it issued, and the time its last response (or
sleep-free return) arrived. -/
structure TimedFetch where
  result : FetchResult
  starts : List Nat
  endTime : Nat
deriving DecidableEq, Inhabited

/-- Timed version of `goFetch`.  `latency n` is how long the `n`-th attempt's
response takes to arrive. -/
def goFetchT (responses : Nat → HttpResp) (jitter latency : Nat → Nat) :
    Nat → Nat → Nat → TimedFetch
  | 0, attempt, now =>
    let res := responses attempt
    let tResp := now + latency attempt
    if isThrottle res then ⟨⟨false, res.status, []⟩, [now], tResp⟩
    else if ¬ isOkStatus res then ⟨⟨false, res.status, []⟩, [now], tResp⟩
    else ⟨⟨true, 200, res.body⟩, [now], tResp⟩
  | g + 1, attempt, now =>
    let res := responses attempt
    let tResp := now + latency attempt
    if isThrottle res then
      if attempt ≤ MAX_RETRIES then
        let tf := goFetchT responses jitter latency g (attempt + 1)
          (tResp + throttleBackoff res.retryAfter attempt (jitter attempt))
        ⟨tf.result, now :: tf.starts, tf.endTime⟩
      else ⟨⟨false, res.status, []⟩, [now], tResp⟩
    else if ¬ isOkStatus res then
      if attempt ≤ MAX_RETRIES then
        let tf := goFetchT responses jitter latency g (attempt + 1)
          (tResp + errorBackoff attempt (jitter attempt))
        ⟨tf.result, now :: tf.starts, tf.endTime⟩
      else ⟨⟨false, res.status, []⟩, [now], tResp⟩
    else ⟨⟨true, 200, res.body⟩, [now], tResp⟩

/-- Timed `nominatimFetch(url, 1)` as issued by each ladder strategy. -/
def nominatimFetchT (responses : Nat → HttpResp) (jitter latency : Nat → Nat) (now : Nat) :
    TimedFetch :=
  goFetchT responses jitter latency (MAX_RETRIES + 1 - 1) 1 now

/-- Timed ladder walk: strategy `i` uses response/jitter/latency streams
`responses i`, `jitter i`, `latency i`, and each strategy's fetch starts the
moment the previous strategy's last response arrived (the script has no delay
between strategies of one row). -/
def ladderT (row : Row) (responses : Nat → Nat → HttpResp) (jitter latency : Nat → Nat → Nat) :
    List StrategySpec → Nat → Nat → Geo × List Nat × Nat
  | [], _, now => (noResultGeo, [], now)
  | s :: rest, i, now =>
    let tf := nominatimFetchT (responses i) (jitter i) (latency i) now
    match attemptStrategy row s tf.result with
    | some g => (g, tf.starts, tf.endTime)
    | none =>
      let r := ladderT row responses jitter latency rest (i + 1) tf.endTime
      (r.1, tf.starts ++ r.2.1, r.2.2)

/-- Timed body of the row loop for one geocoded row (lines 406-411): wait out
the remainder of the one-second minimum since `lastCallAt`, run the ladder,
and record the new `lastCallAt = Date.now()` taken after the ladder returned.
Returns the outbound request start times and the new `lastCallAt`. -/
def processRowT (row : Row) (responses : Nat → Nat → HttpResp)
    (jitter latency : Nat → Nat → Nat) (now lastCallAt : Nat) : List Nat × Nat :=
  let since := now - lastCallAt
  let now1 := if since < ONE_SECOND_MS then now + (ONE_SECOND_MS - since) else now
  let r := ladderT row responses jitter latency theStrategies 0 now1
  (r.2.1, r.2.2)

/-! ### Concrete inputs used by witnesses and counterexamples -/

/-- A typical Guadalajara input row. -/
def rowG : Row :=
  { postalCode := "44100", settlement := "Centro", municipality := "Guadalajara",
    state := "Jalisco" }

/-- A second input row. -/
def rowT : Row :=
  { postalCode := "45500", settlement := "Centro", municipality := "Tlaquepaque",
    state := "Jalisco" }

/-- Every strategy fetch succeeds with an empty candidate list. -/
def emptyOkResps : Nat → FetchResult := fun _ => ⟨true, 200, []⟩

/-- A row whose geocoding runs the whole ladder without a result. -/
def riOk : RowInput := ⟨rowG, emptyOkResps, none⟩

/-- A row whose processing throws. -/
def riErr : RowInput := ⟨rowG, emptyOkResps, some "boom"⟩

/-- A candidate matching `rowG` by address postcode but not of postcode type. -/
def candNb : Candidate :=
  { lat := "20.6", lon := "-103.3", type := "neighbourhood", cls := "place",
    importance := 1/2, address := { postcode := "44100", state := "Jalisco" } }

/-- Strategy 1 returns `candNb`; later strategies would return nothing. -/
def respsNb : Nat → FetchResult := fun i =>
  if i = 0 then ⟨true, 200, [candNb]⟩ else ⟨true, 200, []⟩

/-- Row input whose first strategy accepts `candNb`. -/
def riNb : RowInput := ⟨rowG, respsNb, none⟩

/-- A suburb-type candidate matching `rowT` by address postcode. -/
def candSb : Candidate :=
  { lat := "20.64", lon := "-103.31", type := "suburb", cls := "place",
    importance := 1/2, address := { postcode := "45500", state := "Jalisco" } }

/-- Strategy 1 finds nothing; strategy 2 returns `candSb`. -/
def respsSb : Nat → FetchResult := fun i =>
  if i = 1 then ⟨true, 200, [candSb]⟩ else ⟨true, 200, []⟩

/-- Row input whose second strategy accepts `candSb`. -/
def riSb : RowInput := ⟨rowT, respsSb, none⟩

/-- An output row for `rowG` with coordinates, as found in an existing output
file. -/
def outDone : OutRec :=
  { postalCode := "44100", settlement := "Centro", municipality := "Guadalajara",
    lat := "20.67", lon := "-103.35" }

/-- Timed oracle: every attempt of every strategy yields 200 with no data. -/
def emptyOkHttp : Nat → Nat → HttpResp := fun _ _ => ⟨200, 0, []⟩

/-- Zero jitter / zero latency streams for the timed model. -/
def zeroF : Nat → Nat → Nat := fun _ _ => 0

/-- A postcode-type candidate, accepted immediately by strategy 1. -/
def postcodeCand : Candidate := { lat := "20.7", lon := "-103.4", type := "postcode" }

/-- Timed oracle: every attempt returns the postcode candidate. -/
def okPostcodeHttp : Nat → Nat → HttpResp := fun _ _ => ⟨200, 0, [postcodeCand]⟩

/-- A surviving settlement-like candidate for the generic selector. -/
def candVl : Candidate :=
  { type := "village", cls := "place", importance := 1/2,
    address := { state := "Jalisco", town := "Tala" } }

/-- A blacklisted road candidate for the generic selector. -/
def candHw : Candidate := { type := "motorway", cls := "highway", importance := 9 }

/-- Untimed transport oracle: every attempt is an HTTP 500. -/
def resp500 : Nat → HttpResp := fun _ => ⟨500, 0, []⟩

/-- Zero jitter for the untimed transport. -/
def zeroJit : Nat → Nat := fun _ => 0

/-- The tier/precision bookkeeping actually guaranteed for a written record:
precision is one of 0-3; the confidence tier is one of the four documented
values or the extra value `unknown`; the four documented table rows hold
(CP-family source with a postcode-type note gives `exact_postcode`/3, the two
settlement free-text sources give `text_locality`/2, the municipality source
gives `municipality_fallback`/1, ladder exhaustion gives `no_result`/0); and
`unknown` (precision 0) occurs exactly for a CP-family source whose note is
not the postcode type. -/
def TierTable (src note conf : String) (prec : Nat) : Prop :=
  (prec = 0 ∨ prec = 1 ∨ prec = 2 ∨ prec = 3) ∧
  (conf = "exact_postcode" ∨ conf = "text_locality" ∨ conf = "municipality_fallback" ∨
    conf = "no_result" ∨ conf = "unknown") ∧
  (strStarts src "nominatim_cp" = true ∧ note = "postcode" →
    conf = "exact_postcode" ∧ prec = 3) ∧
  ((src = "nominatim_freetext" ∨ src = "nominatim_freetext_cp") →
    conf = "text_locality" ∧ prec = 2) ∧
  (src = "nominatim_municipality" → conf = "municipality_fallback" ∧ prec = 1) ∧
  (src = "nominatim" → conf = "no_result" ∧ prec = 0) ∧
  (conf = "unknown" →
    prec = 0 ∧ strStarts src "nominatim_cp" = true ∧ note ≠ "postcode")

/-! ### Helper lemmas: strings and resume keys -/

theorem trimChars_ne_nil {l : List Char} {c : Char} (hc : c ∈ l)
    (hw : c.isWhitespace = false) : trimChars l ≠ [] := by
  unfold trimChars
  intro h
  rw [List.reverse_eq_nil_iff, List.dropWhile_eq_nil_iff] at h
  have hmem : c ∈ l.dropWhile Char.isWhitespace := by
    rcases (List.mem_append.mp
      ((List.takeWhile_append_dropWhile Char.isWhitespace l) ▸ hc)) with h1 | h2
    · exact absurd (List.mem_takeWhile_imp h1) (by simp [hw])
    · exact h2
  have := h c (List.mem_reverse.mpr hmem)
  simp [hw] at this

theorem pipe_mem_keyParts (a b c d : String) : '|' ∈ keyParts a b c d := by
  unfold keyParts
  simp

theorem string_mk_ne_empty {l : List Char} (h : l ≠ []) : String.mk l ≠ "" := by
  intro he
  exact h (by simpa using congrArg String.data he)

/-- With the default resume-key fields the trimmed joined key is never empty,
so `makeResumeKey` never reaches its `JSON.stringify` fallback. -/
theorem makeResumeKey_eq (row : Row) :
    makeResumeKey row = String.mk (trimChars
      (keyParts row.postalCode row.settlement row.municipality row.settlementIdCpcons)) := by
  unfold makeResumeKey
  rw [if_neg]
  exact string_mk_ne_empty (trimChars_ne_nil (pipe_mem_keyParts _ _ _ _) (by decide))

theorem outputKey_ne_empty (o : OutRec) : outputKey o ≠ "" := by
  unfold outputKey
  exact string_mk_ne_empty (trimChars_ne_nil (pipe_mem_keyParts _ _ _ _) (by decide))

theorem mem_readAlreadyProcessedKeys {outRows : List OutRec} {o : OutRec}
    (ho : o ∈ outRows) (hlat : o.lat ≠ "") (hlon : o.lon ≠ "") :
    outputKey o ∈ readAlreadyProcessedKeys outRows := by
  unfold readAlreadyProcessedKeys
  rw [List.mem_filterMap]
  exact ⟨o, ho, by rw [if_pos ⟨hlat, hlon⟩, if_pos (outputKey_ne_empty o)]⟩

/-! ### Helper lemmas: the ladder -/

theorem attemptStrategy_some {row : Row} {s : StrategySpec} {r : FetchResult} {g : Geo}
    (h : attemptStrategy row s r = some g) : ∃ c, g = mkGeo s.source c := by
  unfold attemptStrategy at h
  split at h
  · cases hm : s.mode <;> rw [hm] at h <;>
      rcases Option.map_eq_some'.mp h with ⟨c, _, hc⟩ <;> exact ⟨c, hc.symm⟩
  · exact absurd h (by simp)

theorem ladderGo_stop (row : Row) (resps : Nat → FetchResult) :
    ∀ (l : List StrategySpec) (i k : Nat) (g : Geo),
      (∀ j, j < k → attemptStrategy row (l.getD j default) (resps (i + j)) = none) →
      k < l.length →
      attemptStrategy row (l.getD k default) (resps (i + k)) = some g →
      ladderGo row resps l i = g ∧ ladderCount row resps l i = k + 1 := by
  intro l
  induction l with
  | nil => intro i k g _ hlen _; simp at hlen
  | cons s rest ih =>
    intro i k g hnone hlen hacc
    cases k with
    | zero =>
      simp only [List.getD_cons_zero, Nat.add_zero] at hacc
      constructor <;> simp [ladderGo, ladderCount, hacc]
    | succ k =>
      have h0 : attemptStrategy row s (resps i) = none := by
        have := hnone 0 (Nat.succ_pos k)
        simpa using this
      have hrec := ih (i + 1) k g
        (fun j hj => by
          have := hnone (j + 1) (by omega)
          have harith : i + (j + 1) = i + 1 + j := by omega
          simpa [harith] using this)
        (by simpa using hlen)
        (by
          have harith : i + (k + 1) = i + 1 + k := by omega
          simpa [harith] using hacc)
      constructor
      · simp [ladderGo, h0, hrec.1]
      · simp [ladderCount, h0, hrec.2]; omega

theorem ladderGo_exhaust (row : Row) (resps : Nat → FetchResult) :
    ∀ (l : List StrategySpec) (i : Nat),
      (∀ j, j < l.length → attemptStrategy row (l.getD j default) (resps (i + j)) = none) →
      ladderGo row resps l i = noResultGeo ∧ ladderCount row resps l i = l.length := by
  intro l
  induction l with
  | nil => intro i _; simp [ladderGo, ladderCount]
  | cons s rest ih =>
    intro i hnone
    have h0 : attemptStrategy row s (resps i) = none := by
      have := hnone 0 (by simp)
      simpa using this
    have hrec := ih (i + 1) (fun j hj => by
      have := hnone (j + 1) (by simp; omega)
      have harith : i + (j + 1) = i + 1 + j := by omega
      simpa [harith] using this)
    constructor
    · simp [ladderGo, h0, hrec.1]
    · simp [ladderCount, h0, hrec.2]; omega

theorem ladderCount_pos (row : Row) (resps : Nat → FetchResult) (s : StrategySpec)
    (rest : List StrategySpec) (i : Nat) : 1 ≤ ladderCount row resps (s :: rest) i := by
  unfold ladderCount
  cases attemptStrategy row s (resps i) <;> simp

theorem ladderGo_cases (row : Row) (resps : Nat → FetchResult) :
    ∀ (l : List StrategySpec) (i : Nat),
      ladderGo row resps l i = noResultGeo ∨
        ∃ s, s ∈ l ∧ ∃ c, ladderGo row resps l i = mkGeo s.source c := by
  intro l
  induction l with
  | nil => intro i; left; rfl
  | cons s rest ih =>
    intro i
    rcases h : attemptStrategy row s (resps i) with _ | g
    · rcases ih (i + 1) with h1 | ⟨t, ht, c, hc⟩
      · left; simp [ladderGo, h, h1]
      · right; exact ⟨t, by simp [ht], c, by simp [ladderGo, h, hc]⟩
    · right
      rcases attemptStrategy_some h with ⟨c, hc⟩
      exact ⟨s, by simp, c, by simp [ladderGo, h, hc]⟩

/-! ### Claim theorems -/

/-- Claim C3: for every row, the eight strategies are attempted in the fixed
order 1-8 and the ladder stops at the first strategy that yields an accepted
candidate; under strategies 1-5 (`.cpExact`) a candidate is accepted iff its
type is the postcode type or its address postcode equals the row's postal
code, and the first candidate in response order satisfying this is taken with
no re-ranking; strategies 6-8 use the generic scoring selector instead. -/
theorem ladder_order_and_acceptance (row : Row) (resps : Nat → FetchResult)
    (hcp : row.postalCode ≠ "") :
    theStrategies.map StrategySpec.mode
      = [.cpExact, .cpExact, .cpExact, .cpExact, .cpExact, .generic, .generic, .generic] ∧
    (∀ c, isGoodCPMatch row.postalCode c = true ↔
      (c.type = "postcode" ∨ addrPostcodeOf c = row.postalCode)) ∧
    (∀ s r, s.mode = AcceptMode.cpExact → r.ok = true → r.data ≠ [] →
      attemptStrategy row s r = (r.data.find? (isGoodCPMatch row.postalCode)).map (mkGeo s.source)) ∧
    (∀ s r, s.mode = AcceptMode.generic → r.ok = true → r.data ≠ [] →
      attemptStrategy row s r
        = (pickBestGeneric (if s.cpArg then row.postalCode else "") row.municipality r.data).map
            (mkGeo s.source)) ∧
    (∀ k g, k < 8 →
      (∀ j, j < k → attemptStrategy row (theStrategies.getD j default) (resps j) = none) →
      attemptStrategy row (theStrategies.getD k default) (resps k) = some g →
      geocodeWithFallback row resps = g ∧ ladderRequests row resps = k + 1) ∧
    ((∀ j, j < 8 → attemptStrategy row (theStrategies.getD j default) (resps j) = none) →
      geocodeWithFallback row resps = noResultGeo ∧ ladderRequests row resps = 8) := by
  refine ⟨by decide, ?_, ?_, ?_, ?_, ?_⟩
  · intro c
    unfold isGoodCPMatch
    split_ifs with h1 h2
    · simp [h1]
    · simp [h2.2.2.symm]
    · constructor
      · intro h; exact absurd h (by simp)
      · rintro (h | h)
        · exact absurd h h1
        · exact absurd ⟨hcp, h ▸ hcp, h.symm⟩ h2
  · intro s r hmode hok hdata
    unfold attemptStrategy
    rw [if_pos ⟨hok, hdata⟩, hmode]
  · intro s r hmode hok hdata
    unfold attemptStrategy
    rw [if_pos ⟨hok, hdata⟩, hmode]
  · intro k g hk hnone hacc
    exact ladderGo_stop row resps theStrategies 0 k g (by simpa using hnone)
      (by simpa [theStrategies] using hk) (by simpa using hacc)
  · intro hnone
    exact ladderGo_exhaust row resps theStrategies 0
      (by simpa [theStrategies] using hnone)

/-- Witness for C3 at a concrete row and response oracle. -/
theorem ladder_order_and_acceptance_witness :
    (theStrategies.map StrategySpec.mode
      = [.cpExact, .cpExact, .cpExact, .cpExact, .cpExact, .generic, .generic, .generic]) ∧
    (∀ c, isGoodCPMatch rowG.postalCode c = true ↔
      (c.type = "postcode" ∨ addrPostcodeOf c = rowG.postalCode)) ∧
    (∀ s r, s.mode = AcceptMode.cpExact → r.ok = true → r.data ≠ [] →
      attemptStrategy rowG s r
        = (r.data.find? (isGoodCPMatch rowG.postalCode)).map (mkGeo s.source)) ∧
    (∀ s r, s.mode = AcceptMode.generic → r.ok = true → r.data ≠ [] →
      attemptStrategy rowG s r
        = (pickBestGeneric (if s.cpArg then rowG.postalCode else "") rowG.municipality r.data).map
            (mkGeo s.source)) ∧
    (∀ k g, k < 8 →
      (∀ j, j < k → attemptStrategy rowG (theStrategies.getD j default) (emptyOkResps j) = none) →
      attemptStrategy rowG (theStrategies.getD k default) (emptyOkResps k) = some g →
      geocodeWithFallback rowG emptyOkResps = g ∧ ladderRequests rowG emptyOkResps = k + 1) ∧
    ((∀ j, j < 8 → attemptStrategy rowG (theStrategies.getD j default) (emptyOkResps j) = none) →
      geocodeWithFallback rowG emptyOkResps = noResultGeo ∧
        ladderRequests rowG emptyOkResps = 8) :=
  ladder_order_and_acceptance rowG emptyOkResps (by decide)

/-! ### Helper lemmas: the row loop -/

theorem stepRow_full (doneKeys : List String) (st : LoopState) (ri : RowInput) :
    (stepRow doneKeys st ri).full = st.full ++ traceFull (processRow doneKeys ri) := by
  cases h : processRow doneKeys ri <;> simp [stepRow, h, traceFull]

theorem stepRow_miss (doneKeys : List String) (st : LoopState) (ri : RowInput) :
    (stepRow doneKeys st ri).miss = st.miss ++ traceMiss (processRow doneKeys ri) := by
  cases h : processRow doneKeys ri <;> simp [stepRow, h, traceMiss]

theorem runRows_full (doneKeys : List String) :
    ∀ (ris : List RowInput) (st : LoopState),
      (runRows doneKeys st ris).full = st.full ++ flatFull doneKeys ris := by
  intro ris
  induction ris with
  | nil => intro st; simp [runRows, flatFull]
  | cons ri rest ih =>
    intro st
    rw [runRows, ih, stepRow_full, flatFull, List.append_assoc]

theorem runRows_miss (doneKeys : List String) :
    ∀ (ris : List RowInput) (st : LoopState),
      (runRows doneKeys st ris).miss = st.miss ++ flatMiss doneKeys ris := by
  intro ris
  induction ris with
  | nil => intro st; simp [runRows, flatMiss]
  | cons ri rest ih =>
    intro st
    rw [runRows, ih, stepRow_miss, flatMiss, List.append_assoc]

theorem flatFull_append (doneKeys : List String) (l1 l2 : List RowInput) :
    flatFull doneKeys (l1 ++ l2) = flatFull doneKeys l1 ++ flatFull doneKeys l2 := by
  induction l1 with
  | nil => simp [flatFull]
  | cons ri rest ih => simp [flatFull, ih]

theorem flatMiss_append (doneKeys : List String) (l1 l2 : List RowInput) :
    flatMiss doneKeys (l1 ++ l2) = flatMiss doneKeys l1 ++ flatMiss doneKeys l2 := by
  induction l1 with
  | nil => simp [flatMiss]
  | cons ri rest ih => simp [flatMiss, ih]

theorem processRow_ok_of (doneKeys : List String) (ri : RowInput)
    (hm : ri.row.municipality ≠ "") (hk : makeResumeKey ri.row ∉ doneKeys)
    (he : ri.exc = none) :
    processRow doneKeys ri
      = .ok (normalizeRowForOutput ri.row (geocodeWithFallback ri.row ri.resps))
          (ladderRequests ri.row ri.resps) := by
  unfold processRow
  rw [if_neg hm, if_neg hk, he]

theorem processRow_err_elim {doneKeys : List String} {ri : RowInput} {out : OutRec}
    (h : processRow doneKeys ri = .err out) :
    ∃ msg, ri.exc = some msg ∧ out = errorOut ri.row msg := by
  unfold processRow at h
  split_ifs at h
  rcases he : ri.exc with _ | msg <;> rw [he] at h
  · simp at h
  · exact ⟨msg, rfl, (by simpa using h.symm)⟩

theorem normalize_fields (row : Row) (geo : Geo) :
    (normalizeRowForOutput row geo).confidence
      = confidenceTag geo.geocodeSource geo.geocodeNote ∧
    (normalizeRowForOutput row geo).precision
      = precisionMap (confidenceTag geo.geocodeSource geo.geocodeNote) ∧
    (normalizeRowForOutput row geo).missReason
      = (if confidenceTag geo.geocodeSource geo.geocodeNote = "municipality_fallback" ∨
           confidenceTag geo.geocodeSource geo.geocodeNote = "no_result"
         then geo.geocodeNote else "") :=
  ⟨rfl, rfl, rfl⟩

theorem errorOut_fields (row : Row) (msg : String) :
    (errorOut row msg).confidence = "no_result" ∧ (errorOut row msg).precision = 0 ∧
    (errorOut row msg).missReason = "error_" ++ msg ∧
    (errorOut row msg).lat = "" ∧ (errorOut row msg).lon = "" := by
  unfold errorOut normalizeRowForOutput
  simp

/-- Claim C10: the completed-key set is computed once at run start and never
modified during the run: two not-yet-completed rows of the same run sharing a
resume key are both geocoded (each issues at least one request) and both are
written to the full output stream; resume skipping only reflects the output
file as it stood before the run. -/
theorem resume_index_static (doneKeys : List String) (pre mid post : List RowInput)
    (a b : RowInput) (hma : a.row.municipality ≠ "") (hmb : b.row.municipality ≠ "")
    (hkeyab : makeResumeKey b.row = makeResumeKey a.row)
    (hk : makeResumeKey a.row ∉ doneKeys)
    (hea : a.exc = none) (heb : b.exc = none) :
    ∃ outA nA outB nB,
      processRow doneKeys a = .ok outA nA ∧ processRow doneKeys b = .ok outB nB ∧
      1 ≤ nA ∧ 1 ≤ nB ∧
      ∀ st : LoopState,
        (runRows doneKeys st (pre ++ a :: (mid ++ b :: post))).full
          = st.full ++ (flatFull doneKeys pre
              ++ outA :: (flatFull doneKeys mid ++ outB :: flatFull doneKeys post)) := by
  have hkb : makeResumeKey b.row ∉ doneKeys := by rw [hkeyab]; exact hk
  have ha := processRow_ok_of doneKeys a hma hk hea
  have hb := processRow_ok_of doneKeys b hmb hkb heb
  refine ⟨_, _, _, _, ha, hb, ?_, ?_, ?_⟩
  · unfold ladderRequests theStrategies
    exact ladderCount_pos _ _ _ _ _
  · unfold ladderRequests theStrategies
    exact ladderCount_pos _ _ _ _ _
  · intro st
    rw [runRows_full, flatFull_append]
    have h1 : flatFull doneKeys (a :: (mid ++ b :: post))
        = traceFull (processRow doneKeys a) ++ flatFull doneKeys (mid ++ b :: post) := rfl
    have h2 : flatFull doneKeys (b :: post)
        = traceFull (processRow doneKeys b) ++ flatFull doneKeys post := rfl
    rw [h1, flatFull_append, h2, ha, hb]
    simp [traceFull]

/-- Witness for C10 at two concrete rows sharing a key. -/
theorem resume_index_static_witness :
    ∃ outA nA outB nB,
      processRow [] riOk = .ok outA nA ∧ processRow [] riOk = .ok outB nB ∧
      1 ≤ nA ∧ 1 ≤ nB ∧
      ∀ st : LoopState,
        (runRows [] st ([] ++ riOk :: ([] ++ riOk :: []))).full
          = st.full ++ (flatFull [] []
              ++ outA :: (flatFull [] [] ++ outB :: flatFull [] [])) :=
  resume_index_static [] [] [] [] riOk riOk (by decide) (by decide) rfl
    (by decide) rfl rfl

/-- Claim C6: a row whose resume key is in the completed set built from output
rows having both coordinates populated is skipped: no HTTP request is issued
and no output line is emitted for it, so a rerun against the same output file
issues zero additional requests for such rows. -/
theorem resume_skip_no_requests (outRows : List OutRec) (ri : RowInput)
    (hm : ri.row.municipality ≠ "")
    (h : ∃ o, o ∈ outRows ∧ o.lat ≠ "" ∧ o.lon ≠ "" ∧ outputKey o = makeResumeKey ri.row) :
    processRow (readAlreadyProcessedKeys outRows) ri = .skipResume ∧
    traceRequests (processRow (readAlreadyProcessedKeys outRows) ri) = 0 ∧
    traceFull (processRow (readAlreadyProcessedKeys outRows) ri) = [] ∧
    traceMiss (processRow (readAlreadyProcessedKeys outRows) ri) = [] := by
  rcases h with ⟨o, ho, hlat, hlon, hkey⟩
  have hmem : makeResumeKey ri.row ∈ readAlreadyProcessedKeys outRows :=
    hkey ▸ mem_readAlreadyProcessedKeys ho hlat hlon
  have hskip : processRow (readAlreadyProcessedKeys outRows) ri = .skipResume := by
    unfold processRow
    rw [if_neg hm, if_pos hmem]
  exact ⟨hskip, by rw [hskip]; rfl, by rw [hskip]; rfl, by rw [hskip]; rfl⟩

/-- Witness for C6 at a concrete output file and row. -/
theorem resume_skip_no_requests_witness :
    processRow (readAlreadyProcessedKeys [outDone]) riOk = .skipResume ∧
    traceRequests (processRow (readAlreadyProcessedKeys [outDone]) riOk) = 0 ∧
    traceFull (processRow (readAlreadyProcessedKeys [outDone]) riOk) = [] ∧
    traceMiss (processRow (readAlreadyProcessedKeys [outDone]) riOk) = [] :=
  resume_skip_no_requests [outDone] riOk (by decide)
    ⟨outDone, by simp, by decide, by decide, by decide⟩

/-- Claim C7: a row whose processing raises an exception is caught locally:
the row is still written, as `no_result` with precision 0 and the exception
message captured in `missReason`, to both streams, and the loop continues
with the remaining rows; no single row's failure aborts the run. -/
theorem row_error_containment (doneKeys : List String) (pre post : List RowInput)
    (ri : RowInput) (msg : String) (hm : ri.row.municipality ≠ "")
    (hk : makeResumeKey ri.row ∉ doneKeys) (he : ri.exc = some msg) :
    ∃ out, processRow doneKeys ri = .err out ∧
      out.confidence = "no_result" ∧ out.precision = 0 ∧
      out.missReason = "error_" ++ msg ∧ out.lat = "" ∧ out.lon = "" ∧
      ∀ st : LoopState,
        (runRows doneKeys st (pre ++ ri :: post)).full
          = st.full ++ (flatFull doneKeys pre ++ out :: flatFull doneKeys post) ∧
        (runRows doneKeys st (pre ++ ri :: post)).miss
          = st.miss ++ (flatMiss doneKeys pre ++ out :: flatMiss doneKeys post) := by
  have herr : processRow doneKeys ri = .err (errorOut ri.row msg) := by
    unfold processRow
    rw [if_neg hm, if_neg hk, he]
  obtain ⟨h1, h2, h3, h4, h5⟩ := errorOut_fields ri.row msg
  refine ⟨errorOut ri.row msg, herr, h1, h2, h3, h4, h5, ?_⟩
  intro st
  constructor
  · rw [runRows_full, flatFull_append]
    have : flatFull doneKeys (ri :: post)
        = traceFull (processRow doneKeys ri) ++ flatFull doneKeys post := rfl
    rw [this, herr]
    simp [traceFull]
  · rw [runRows_miss, flatMiss_append]
    have : flatMiss doneKeys (ri :: post)
        = traceMiss (processRow doneKeys ri) ++ flatMiss doneKeys post := rfl
    rw [this, herr]
    simp [traceMiss]

/-- Witness for C7 at a concrete throwing row. -/
theorem row_error_containment_witness :
    ∃ out, processRow [] riErr = .err out ∧
      out.confidence = "no_result" ∧ out.precision = 0 ∧
      out.missReason = "error_" ++ "boom" ∧ out.lat = "" ∧ out.lon = "" ∧
      ∀ st : LoopState,
        (runRows [] st ([] ++ riErr :: [])).full
          = st.full ++ (flatFull [] [] ++ out :: flatFull [] []) ∧
        (runRows [] st ([] ++ riErr :: [])).miss
          = st.miss ++ (flatMiss [] [] ++ out :: flatMiss [] []) :=
  row_error_containment [] [] [] riErr "boom" (by decide) (by decide) rfl

/-- Claim C8: every processed row (normal or error path) is appended to the
full-results stream, whose header is written only if the output file did not
already exist; a processed row goes to the misses stream iff its confidence
tier is `municipality_fallback` or `no_result` (so a `no_result` row appears
in both streams). -/
theorem dual_stream_write (doneKeys : List String) (ri : RowInput) (b : Bool)
    (out : OutRec) (n : Nat)
    (h : processRow doneKeys ri = .ok out n ∨ processRow doneKeys ri = .err out) :
    (createCsvWriter b).header = !b ∧
    traceFull (processRow doneKeys ri) = [out] ∧
    traceMiss (processRow doneKeys ri)
      = (if out.confidence = "municipality_fallback" ∨ out.confidence = "no_result"
         then [out] else []) ∧
    (processRow doneKeys ri = .err out → out.confidence = "no_result") := by
  refine ⟨rfl, ?_, ?_, ?_⟩
  · rcases h with h | h <;> rw [h] <;> rfl
  · rcases h with h | h
    · rw [h]; rfl
    · rcases processRow_err_elim h with ⟨msg, _, hout⟩
      rw [h, hout]
      have hc := (errorOut_fields ri.row msg).1
      simp [traceMiss, hc]
  · intro herr
    rcases processRow_err_elim herr with ⟨msg, _, hout⟩
    rw [hout]
    exact (errorOut_fields ri.row msg).1

/-- Witness for C8 at a concrete processed row. -/
theorem dual_stream_write_witness :
    (createCsvWriter false).header = !false ∧
    traceFull (processRow [] riOk)
      = [normalizeRowForOutput rowG (geocodeWithFallback rowG emptyOkResps)] ∧
    traceMiss (processRow [] riOk)
      = (if (normalizeRowForOutput rowG (geocodeWithFallback rowG emptyOkResps)).confidence
            = "municipality_fallback" ∨
          (normalizeRowForOutput rowG (geocodeWithFallback rowG emptyOkResps)).confidence
            = "no_result"
         then [normalizeRowForOutput rowG (geocodeWithFallback rowG emptyOkResps)] else []) ∧
    (processRow [] riOk
        = .err (normalizeRowForOutput rowG (geocodeWithFallback rowG emptyOkResps)) →
      (normalizeRowForOutput rowG (geocodeWithFallback rowG emptyOkResps)).confidence
        = "no_result") :=
  dual_stream_write [] riOk false
    (normalizeRowForOutput rowG (geocodeWithFallback rowG emptyOkResps))
    (ladderRequests rowG emptyOkResps) (Or.inl (by decide))

/-! ### Helper lemmas: the confidence table -/

theorem tierTable_cp (src : String) (hstart : strStarts src "nominatim_cp" = true)
    (h2 : src ≠ "nominatim_freetext") (h3 : src ≠ "nominatim_freetext_cp")
    (h4 : src ≠ "nominatim_municipality") (h5 : src ≠ "nominatim") (note : String) :
    TierTable src note (confidenceTag src note) (precisionMap (confidenceTag src note)) := by
  unfold TierTable confidenceTag
  by_cases hp : note = "postcode"
  · rw [if_pos ⟨hstart, hp⟩]
    refine ⟨by decide, by simp, fun _ => ⟨rfl, by decide⟩, ?_, fun h => absurd h h4,
      fun h => absurd h h5, by simp⟩
    rintro (h | h)
    · exact absurd h h2
    · exact absurd h h3
  · rw [if_neg (fun hcond => hp hcond.2),
      if_neg (fun hcond => hcond.elim h2 h3), if_neg h4]
    by_cases hr : note = "no_result"
    · rw [if_pos hr]
      refine ⟨by decide, by simp, fun hcond => absurd hcond.2 hp, ?_,
        fun h => absurd h h4, fun h => absurd h h5, by simp⟩
      rintro (h | h)
      · exact absurd h h2
      · exact absurd h h3
    · rw [if_neg hr]
      refine ⟨by decide, by simp, fun hcond => absurd hcond.2 hp, ?_,
        fun h => absurd h h4, fun h => absurd h h5, fun _ => ⟨by decide, hstart, hp⟩⟩
      rintro (h | h)
      · exact absurd h h2
      · exact absurd h h3

theorem tierTable_freetext (src note : String)
    (h : src = "nominatim_freetext" ∨ src = "nominatim_freetext_cp") :
    TierTable src note (confidenceTag src note) (precisionMap (confidenceTag src note)) := by
  rcases h with rfl | rfl <;>
  · unfold TierTable confidenceTag
    rw [if_neg (fun hcond => absurd hcond.1 (by decide)), if_pos (by simp)]
    exact ⟨by decide, by simp, fun hcond => absurd hcond.1 (by decide),
      fun _ => ⟨rfl, by decide⟩, fun h => absurd h (by decide), fun h => absurd h (by decide),
      by simp⟩

theorem tierTable_muni (note : String) :
    TierTable "nominatim_municipality" note
      (confidenceTag "nominatim_municipality" note)
      (precisionMap (confidenceTag "nominatim_municipality" note)) := by
  unfold TierTable confidenceTag
  rw [if_neg (fun hcond => absurd hcond.1 (by decide)), if_neg (by decide), if_pos rfl]
  exact ⟨by decide, by simp, fun hcond => absurd hcond.1 (by decide),
    fun h => absurd h (by decide), fun _ => ⟨rfl, by decide⟩, fun h => absurd h (by decide),
    by simp⟩

/-- Every value `geocodeWithFallback` can return satisfies the (amended)
confidence table. -/
theorem geocode_tierTable (row : Row) (resps : Nat → FetchResult) :
    TierTable (geocodeWithFallback row resps).geocodeSource
      (geocodeWithFallback row resps).geocodeNote
      (confidenceTag (geocodeWithFallback row resps).geocodeSource
        (geocodeWithFallback row resps).geocodeNote)
      (precisionMap (confidenceTag (geocodeWithFallback row resps).geocodeSource
        (geocodeWithFallback row resps).geocodeNote)) := by
  rcases ladderGo_cases row resps theStrategies 0 with hdef | ⟨s, hs, c, hc⟩
  · have hg : geocodeWithFallback row resps = noResultGeo := hdef
    rw [hg]
    unfold TierTable noResultGeo
    exact ⟨by decide, by decide, fun hcond => absurd hcond.1 (by decide),
      fun h => absurd h (by decide), fun h => absurd h (by decide),
      fun _ => ⟨by decide, by decide⟩, fun h => absurd h (by decide)⟩
  · have hg : geocodeWithFallback row resps = mkGeo s.source c := hc
    rw [hg]
    unfold theStrategies at hs
    fin_cases hs <;> simp only [mkGeo] <;>
      first
        | (apply tierTable_cp <;> decide)
        | (apply tierTable_freetext; decide)
        | (apply tierTable_muni)

/-- Claim C2 as stated is refuted elsewhere; amended form: for every row with
a non-empty municipality that is not resume-skipped and does not throw,
exactly one record is appended to the full stream, its precision is in
0-3, and its confidence tier is one of the four documented values or
the extra value `unknown`, following the documented table in the four
documented cases and taking `unknown` (precision 0) exactly when a CP-family
strategy accepted a candidate whose note is not the postcode type. -/
theorem output_record_amended (doneKeys : List String) (ri : RowInput)
    (hm : ri.row.municipality ≠ "") (hk : makeResumeKey ri.row ∉ doneKeys)
    (he : ri.exc = none) :
    ∃ out : OutRec,
      processRow doneKeys ri = .ok out (ladderRequests ri.row ri.resps) ∧
      traceFull (processRow doneKeys ri) = [out] ∧
      TierTable out.geocodeSource out.geocodeNote out.confidence out.precision := by
  have hok := processRow_ok_of doneKeys ri hm hk he
  refine ⟨_, hok, by rw [hok]; rfl, ?_⟩
  exact geocode_tierTable ri.row ri.resps

/-- Witness for the amended C2 at a concrete row. -/
theorem output_record_amended_witness :
    ∃ out : OutRec,
      processRow [] riOk = .ok out (ladderRequests rowG emptyOkResps) ∧
      traceFull (processRow [] riOk) = [out] ∧
      TierTable out.geocodeSource out.geocodeNote out.confidence out.precision :=
  output_record_amended [] riOk (by decide) (by decide) rfl

/-- Counterexample to claim C2 as stated: for the concrete row `rowG`, whose
first strategy accepts a candidate matching by address postcode with type
`neighbourhood`, exactly one record is appended but its `confidence` is the
string `unknown`, which is none of the four declared tiers. -/
theorem confidence_tier_counterexample :
    (traceFull (processRow [] riNb)).map (fun o => (o.confidence, o.precision))
      = [("unknown", 0)] ∧
    "unknown" ≠ "exact_postcode" ∧ "unknown" ≠ "text_locality" ∧
    "unknown" ≠ "municipality_fallback" ∧ "unknown" ≠ "no_result" := by
  decide

/-- Claim C9: a CP-family strategy (1-5) whose accepted candidate matches via
address-postcode equality but has a type other than the postcode type yields a
written record whose confidence field is the fifth value `unknown`, with
precision 0, and the row is not written to the misses stream.  (The type must
also differ from the literal string `no_result`, which would instead hit the
classifier's `no_result` branch.) -/
theorem unknown_confidence_tier (doneKeys : List String) (ri : RowInput) (k : Nat)
    (c : Candidate) (hm : ri.row.municipality ≠ "") (hk : makeResumeKey ri.row ∉ doneKeys)
    (he : ri.exc = none) (hk5 : k < 5)
    (hnone : ∀ j, j < k → attemptStrategy ri.row (theStrategies.getD j default) (ri.resps j) = none)
    (hok : (ri.resps k).ok = true) (hdata : (ri.resps k).data ≠ [])
    (hfind : (ri.resps k).data.find? (isGoodCPMatch ri.row.postalCode) = some c)
    (htype : c.type ≠ "postcode") (htype2 : c.type ≠ "no_result") :
    ∃ out, processRow doneKeys ri = .ok out (k + 1) ∧
      out.confidence = "unknown" ∧ out.precision = 0 ∧ out.missReason = "" ∧
      traceFull (processRow doneKeys ri) = [out] ∧
      traceMiss (processRow doneKeys ri) = [] := by
  have hspec : (theStrategies.getD k default).mode = AcceptMode.cpExact ∧
      strStarts (theStrategies.getD k default).source "nominatim_cp" = true ∧
      (theStrategies.getD k default).source ≠ "nominatim_freetext" ∧
      (theStrategies.getD k default).source ≠ "nominatim_freetext_cp" ∧
      (theStrategies.getD k default).source ≠ "nominatim_municipality" := by
    interval_cases k <;> exact (by decide)
  have hacc : attemptStrategy ri.row (theStrategies.getD k default) (ri.resps k)
      = some (mkGeo (theStrategies.getD k default).source c) := by
    unfold attemptStrategy
    rw [if_pos ⟨hok, hdata⟩, hspec.1, hfind]
    rfl
  have hstop := ladderGo_stop ri.row ri.resps theStrategies 0 k
    (mkGeo (theStrategies.getD k default).source c)
    (fun j hj => by
      have h := hnone j hj
      have e : (0 : Nat) + j = j := Nat.zero_add j
      rw [e]
      exact h)
    (by simp [theStrategies]; omega)
    (by
      have e : (0 : Nat) + k = k := Nat.zero_add k
      rw [e]
      exact hacc)
  have hgeo : geocodeWithFallback ri.row ri.resps
      = mkGeo (theStrategies.getD k default).source c := hstop.1
  have hok2 := processRow_ok_of doneKeys ri hm hk he
  rw [hgeo] at hok2
  have hreq : ladderRequests ri.row ri.resps = k + 1 := hstop.2
  rw [hreq] at hok2
  have hnotep : (if c.type = "" then "ok" else c.type) ≠ "postcode" := by
    split_ifs with h
    · decide
    · exact htype
  have hnoter : (if c.type = "" then "ok" else c.type) ≠ "no_result" := by
    split_ifs with h
    · decide
    · exact htype2
  have hconf : confidenceTag (theStrategies.getD k default).source
      (if c.type = "" then "ok" else c.type) = "unknown" := by
    unfold confidenceTag
    rw [if_neg (fun hcond => hnotep hcond.2),
      if_neg (fun hcond => hcond.elim hspec.2.2.1 hspec.2.2.2.1),
      if_neg hspec.2.2.2.2, if_neg hnoter]
  obtain ⟨hf1, hf2, hf3⟩ :=
    normalize_fields ri.row (mkGeo (theStrategies.getD k default).source c)
  have hmkNote : (mkGeo (theStrategies.getD k default).source c).geocodeNote
      = (if c.type = "" then "ok" else c.type) := rfl
  have hmkSrc : (mkGeo (theStrategies.getD k default).source c).geocodeSource
      = (theStrategies.getD k default).source := rfl
  rw [hmkNote, hmkSrc, hconf] at hf1 hf2 hf3
  refine ⟨_, hok2, hf1, ?_, ?_, by rw [hok2]; rfl, ?_⟩
  · rw [hf2]
    decide
  · rw [hf3, if_neg (by decide)]
  · rw [hok2]
    simp only [traceMiss]
    rw [hf1]
    rw [if_neg (by decide)]

/-! ### Helper lemmas: the timed model -/

theorem goFetchT_starts_cons (responses : Nat → HttpResp) (jitter latency : Nat → Nat) :
    ∀ (g a now : Nat),
      ∃ rest, (goFetchT responses jitter latency g a now).starts = now :: rest := by
  intro g a now
  cases g <;> (unfold goFetchT; dsimp only; split_ifs <;> exact ⟨_, rfl⟩)

theorem goFetchT_bounds (responses : Nat → HttpResp) (jitter latency : Nat → Nat) :
    ∀ (g a now : Nat),
      now ≤ (goFetchT responses jitter latency g a now).endTime ∧
      ∀ t ∈ (goFetchT responses jitter latency g a now).starts,
        now ≤ t ∧ t ≤ (goFetchT responses jitter latency g a now).endTime := by
  intro g
  induction g with
  | zero =>
    intro a now
    unfold goFetchT
    dsimp only
    split_ifs <;>
      exact ⟨Nat.le_add_right _ _,
        fun t ht => by
          simp at ht
          subst ht
          exact ⟨le_rfl, Nat.le_add_right _ _⟩⟩
  | succ g ih =>
    intro a now
    unfold goFetchT
    dsimp only
    split_ifs <;>
      first
        | -- retry branches
          (refine ⟨?_, fun t ht => ?_⟩
           · exact le_trans (le_trans (Nat.le_add_right _ _) (Nat.le_add_right _ _)) (ih _ _).1
           · simp only [List.mem_cons] at ht
             rcases ht with rfl | ht
             · exact ⟨le_rfl,
                 le_trans (le_trans (Nat.le_add_right _ _) (Nat.le_add_right _ _)) (ih _ _).1⟩
             · obtain ⟨hta, htb⟩ := (ih _ _).2 t ht
               exact ⟨le_trans (le_trans (Nat.le_add_right _ _) (Nat.le_add_right _ _)) hta,
                 htb⟩)
        | -- terminal branches
          exact ⟨Nat.le_add_right _ _,
            fun t ht => by
              simp at ht
              subst ht
              exact ⟨le_rfl, Nat.le_add_right _ _⟩⟩

theorem nominatimFetchT_starts_cons (responses : Nat → HttpResp) (jitter latency : Nat → Nat)
    (now : Nat) :
    ∃ rest, (nominatimFetchT responses jitter latency now).starts = now :: rest :=
  goFetchT_starts_cons responses jitter latency (MAX_RETRIES + 1 - 1) 1 now

theorem nominatimFetchT_bounds (responses : Nat → HttpResp) (jitter latency : Nat → Nat)
    (now : Nat) :
    now ≤ (nominatimFetchT responses jitter latency now).endTime ∧
    ∀ t ∈ (nominatimFetchT responses jitter latency now).starts,
      now ≤ t ∧ t ≤ (nominatimFetchT responses jitter latency now).endTime :=
  goFetchT_bounds responses jitter latency (MAX_RETRIES + 1 - 1) 1 now

theorem ladderT_bounds (row : Row) (responses : Nat → Nat → HttpResp)
    (jitter latency : Nat → Nat → Nat) :
    ∀ (l : List StrategySpec) (i now : Nat),
      now ≤ (ladderT row responses jitter latency l i now).2.2 ∧
      ∀ t ∈ (ladderT row responses jitter latency l i now).2.1,
        now ≤ t ∧ t ≤ (ladderT row responses jitter latency l i now).2.2 := by
  intro l
  induction l with
  | nil =>
    intro i now
    exact ⟨le_rfl, fun t ht => by simp [ladderT] at ht⟩
  | cons s rest ih =>
    intro i now
    obtain ⟨hf1, hf2⟩ := nominatimFetchT_bounds (responses i) (jitter i) (latency i) now
    rcases h : attemptStrategy row s
        (nominatimFetchT (responses i) (jitter i) (latency i) now).result with _ | g
    · have hl : ladderT row responses jitter latency (s :: rest) i now
          = ((ladderT row responses jitter latency rest (i + 1)
                (nominatimFetchT (responses i) (jitter i) (latency i) now).endTime).1,
             (nominatimFetchT (responses i) (jitter i) (latency i) now).starts
               ++ (ladderT row responses jitter latency rest (i + 1)
                    (nominatimFetchT (responses i) (jitter i) (latency i) now).endTime).2.1,
             (ladderT row responses jitter latency rest (i + 1)
                (nominatimFetchT (responses i) (jitter i) (latency i) now).endTime).2.2) := by
        simp only [ladderT]
        rw [h]
      rw [hl]
      obtain ⟨ih1, ih2⟩ := ih (i + 1)
        (nominatimFetchT (responses i) (jitter i) (latency i) now).endTime
      refine ⟨le_trans hf1 ih1, fun t ht => ?_⟩
      rcases List.mem_append.mp ht with ht' | ht'
      · obtain ⟨ha, hb⟩ := hf2 t ht'
        exact ⟨ha, le_trans hb ih1⟩
      · obtain ⟨ha, hb⟩ := ih2 t ht'
        exact ⟨le_trans hf1 ha, hb⟩
    · have hl : ladderT row responses jitter latency (s :: rest) i now
          = (g, (nominatimFetchT (responses i) (jitter i) (latency i) now).starts,
             (nominatimFetchT (responses i) (jitter i) (latency i) now).endTime) := by
        simp only [ladderT]
        rw [h]
      rw [hl]
      exact ⟨hf1, hf2⟩

theorem ladderT_head (row : Row) (responses : Nat → Nat → HttpResp)
    (jitter latency : Nat → Nat → Nat) (s : StrategySpec) (rest : List StrategySpec)
    (i now : Nat) :
    (ladderT row responses jitter latency (s :: rest) i now).2.1.head? = some now := by
  obtain ⟨r, hr⟩ := nominatimFetchT_starts_cons (responses i) (jitter i) (latency i) now
  rcases h : attemptStrategy row s
      (nominatimFetchT (responses i) (jitter i) (latency i) now).result with _ | g
  · have hl : (ladderT row responses jitter latency (s :: rest) i now).2.1
        = (nominatimFetchT (responses i) (jitter i) (latency i) now).starts
            ++ (ladderT row responses jitter latency rest (i + 1)
                (nominatimFetchT (responses i) (jitter i) (latency i) now).endTime).2.1 := by
      simp only [ladderT]
      rw [h]
    rw [hl, hr]
    rfl
  · have hl : (ladderT row responses jitter latency (s :: rest) i now).2.1
        = (nominatimFetchT (responses i) (jitter i) (latency i) now).starts := by
      simp only [ladderT]
      rw [h]
    rw [hl, hr]
    rfl

theorem processRowT_head (row : Row) (responses : Nat → Nat → HttpResp)
    (jitter latency : Nat → Nat → Nat) (now lastCallAt : Nat) :
    (processRowT row responses jitter latency now lastCallAt).1.head?
      = some (if now - lastCallAt < ONE_SECOND_MS
              then now + (ONE_SECOND_MS - (now - lastCallAt)) else now) := by
  unfold processRowT theStrategies
  dsimp only
  exact ladderT_head row responses jitter latency _ _ 0 _

theorem processRowT_first_ge (row : Row) (responses : Nat → Nat → HttpResp)
    (jitter latency : Nat → Nat → Nat) (now lastCallAt v : Nat)
    (h : lastCallAt ≤ now)
    (hv : (processRowT row responses jitter latency now lastCallAt).1.head? = some v) :
    lastCallAt + ONE_SECOND_MS ≤ v := by
  rw [processRowT_head] at hv
  injection hv with hv
  have h1 : ONE_SECOND_MS = 1000 := rfl
  rw [h1] at hv ⊢
  split_ifs at hv with hc <;> omega

theorem processRowT_last_le (row : Row) (responses : Nat → Nat → HttpResp)
    (jitter latency : Nat → Nat → Nat) (now lastCallAt u : Nat)
    (hu : (processRowT row responses jitter latency now lastCallAt).1.getLast? = some u) :
    u ≤ (processRowT row responses jitter latency now lastCallAt).2 := by
  have hmem := List.mem_of_getLast?_eq_some hu
  unfold processRowT at hmem ⊢
  dsimp only at hmem ⊢
  exact ((ladderT_bounds row responses jitter latency theStrategies 0 _).2 u hmem).2

/-- Counterexample to claim C1 as stated: with every strategy fetch answering
200 with an empty body and zero latency, one row issues all eight strategy
requests at the same instant (1000 ms): consecutive outbound requests of the
same row are 0 ms apart, far below the 1000 ms minimum interval. -/
theorem rate_interval_counterexample :
    (processRowT rowG emptyOkHttp zeroF zeroF 0 0).1.length = 8 ∧
    (processRowT rowG emptyOkHttp zeroF zeroF 0 0).1.getD 0 0 = 1000 ∧
    (processRowT rowG emptyOkHttp zeroF zeroF 0 0).1.getD 1 0 = 1000 ∧
    ¬ (ONE_SECOND_MS ≤ (processRowT rowG emptyOkHttp zeroF zeroF 0 0).1.getD 1 0
        - (processRowT rowG emptyOkHttp zeroF zeroF 0 0).1.getD 0 0) := by
  decide

/-- Claim C1 amended: the one-second minimum interval is enforced only
per-row, before the first outbound request of each row — between the last
request of one processed row and the first request of the next, at least
`ONE_SECOND_MS` elapses (the script waits out the remainder of the second
since `lastCallAt`, which is recorded after the previous row's last response);
requests for different strategies within one row may start with no minimum
spacing at all. -/
theorem rate_interval_amended (row1 row2 : Row) (rs1 rs2 : Nat → Nat → HttpResp)
    (j1 l1 j2 l2 : Nat → Nat → Nat) (now lastCallAt u v : Nat)
    (h1 : (processRowT row1 rs1 j1 l1 now lastCallAt).1.getLast? = some u)
    (h2 : (processRowT row2 rs2 j2 l2 (processRowT row1 rs1 j1 l1 now lastCallAt).2
            (processRowT row1 rs1 j1 l1 now lastCallAt).2).1.head? = some v) :
    u + ONE_SECOND_MS ≤ v := by
  have hu := processRowT_last_le row1 rs1 j1 l1 now lastCallAt u h1
  have hv := processRowT_first_ge row2 rs2 j2 l2
    (processRowT row1 rs1 j1 l1 now lastCallAt).2
    (processRowT row1 rs1 j1 l1 now lastCallAt).2 v le_rfl h2
  omega

/-- Witness for the amended C1: a row accepted at strategy 1 finishes at
1000 ms; the next row's first request starts at 2000 ms. -/
theorem rate_interval_amended_witness : (1000 : Nat) + ONE_SECOND_MS ≤ 2000 :=
  rate_interval_amended rowG rowG okPostcodeHttp okPostcodeHttp zeroF zeroF zeroF zeroF
    0 0 1000 2000 (by decide) (by decide)

/-! ### Helper lemmas: the generic selector -/

theorem stateKeep_true {c : Candidate}
    (h : ¬ (c.address.state ≠ "" ∧ jsLower c.address.state ≠ "jalisco")) :
    stateKeep c = true := by
  simp [stateKeep, h]

theorem stateKeep_false {c : Candidate}
    (h : c.address.state ≠ "" ∧ jsLower c.address.state ≠ "jalisco") :
    stateKeep c = false := by
  simp [stateKeep]
  exact h

/-- Walking `pickGo` with an accumulated best `(b, score b)` returns the first
score-maximal element of `b` followed by the kept elements of the remaining
list. -/
theorem pickGo_from (w : String) :
    ∀ (l : List Candidate) (b : Candidate),
      ∃ r, pickGo w l (some (b, candScore w b)) = some (r, candScore w r) ∧
        ∃ pre post, b :: l.filter stateKeep = pre ++ r :: post ∧
          (∀ d ∈ pre, candScore w d < candScore w r) ∧
          (∀ d ∈ b :: l.filter stateKeep, candScore w d ≤ candScore w r) := by
  intro l
  induction l with
  | nil =>
    intro b
    refine ⟨b, rfl, [], [], rfl, by simp, ?_⟩
    intro d hd
    simp at hd
    rw [hd]
  | cons c rest ih =>
    intro b
    by_cases hskip : (c.address.state ≠ "" ∧ jsLower c.address.state ≠ "jalisco")
    · have hfc : (c :: rest).filter stateKeep = rest.filter stateKeep :=
        List.filter_cons_of_neg (by simp [stateKeep_false hskip])
      obtain ⟨r, hr, pre, post, hdec, hpre, hall⟩ := ih b
      refine ⟨r, ?_, pre, post, ?_, hpre, ?_⟩
      · simp only [pickGo]
        rw [if_pos hskip]
        exact hr
      · rw [hfc]
        exact hdec
      · rw [hfc]
        exact hall
    · have hfc : (c :: rest).filter stateKeep = c :: rest.filter stateKeep :=
        List.filter_cons_of_pos (stateKeep_true hskip)
      have hstep : pickGo w (c :: rest) (some (b, candScore w b))
          = if candScore w b < candScore w c
            then pickGo w rest (some (c, candScore w c))
            else pickGo w rest (some (b, candScore w b)) := by
        simp only [pickGo]
        rw [if_neg hskip]
      by_cases hlt : candScore w b < candScore w c
      · obtain ⟨r, hr, pre', post', hdec, hpre, hall⟩ := ih c
        have hcr : candScore w c ≤ candScore w r := hall c (List.mem_cons_self c _)
        refine ⟨r, ?_, b :: pre', post', ?_, ?_, ?_⟩
        · rw [hstep, if_pos hlt]
          exact hr
        · rw [hfc, hdec]
          rfl
        · intro d hd
          rcases List.mem_cons.mp hd with rfl | hd'
          · exact lt_of_lt_of_le hlt hcr
          · exact hpre d hd'
        · intro d hd
          rw [hfc] at hd
          rcases List.mem_cons.mp hd with rfl | hd'
          · exact le_of_lt (lt_of_lt_of_le hlt hcr)
          · exact hall d hd'
      · obtain ⟨r, hr, pre', post', hdec, hpre, hall⟩ := ih b
        have hcb : candScore w c ≤ candScore w b := not_lt.mp hlt
        have hbr : candScore w b ≤ candScore w r := hall b (List.mem_cons_self b _)
        cases pre' with
        | nil =>
          rw [List.nil_append] at hdec
          injection hdec with hrb hpost
          refine ⟨r, ?_, [], c :: rest.filter stateKeep, ?_, by simp, ?_⟩
          · rw [hstep, if_neg hlt]
            exact hr
          · rw [hfc, List.nil_append, hrb, hpost]
          · intro d hd
            rw [hfc] at hd
            rcases List.mem_cons.mp hd with rfl | hd'
            · exact hbr
            · rcases List.mem_cons.mp hd' with rfl | hd''
              · exact le_trans hcb hbr
              · exact hall d (List.mem_cons_of_mem _ hd'')
        | cons p pre'' =>
          rw [List.cons_append] at hdec
          injection hdec with hpb hrest
          have hblt : candScore w b < candScore w r := by
            rw [hpb]
            exact hpre p (List.mem_cons_self p _)
          refine ⟨r, ?_, b :: c :: pre'', post', ?_, ?_, ?_⟩
          · rw [hstep, if_neg hlt]
            exact hr
          · rw [hfc, hrest]
            rfl
          · intro d hd
            rcases List.mem_cons.mp hd with rfl | hd'
            · exact hblt
            · rcases List.mem_cons.mp hd' with rfl | hd''
              · exact lt_of_le_of_lt hcb hblt
              · exact hpre d (List.mem_cons_of_mem _ hd'')
          · intro d hd
            rw [hfc] at hd
            rcases List.mem_cons.mp hd with rfl | hd'
            · exact hbr
            · rcases List.mem_cons.mp hd' with rfl | hd''
              · exact le_of_lt (lt_of_le_of_lt hcb hblt)
              · exact hall d (List.mem_cons_of_mem _ hd'')

/-- Full characterization of the `pickBestGeneric` loop started with the
`-Infinity` accumulator. -/
theorem pickGo_none (w : String) :
    ∀ l : List Candidate,
      (pickGo w l none = none ∧ l.filter stateKeep = []) ∨
      (∃ r, pickGo w l none = some (r, candScore w r) ∧
        ∃ pre post, l.filter stateKeep = pre ++ r :: post ∧
          (∀ d ∈ pre, candScore w d < candScore w r) ∧
          (∀ d ∈ l.filter stateKeep, candScore w d ≤ candScore w r)) := by
  intro l
  induction l with
  | nil => exact Or.inl ⟨rfl, rfl⟩
  | cons c rest ih =>
    by_cases hskip : (c.address.state ≠ "" ∧ jsLower c.address.state ≠ "jalisco")
    · have hfc : (c :: rest).filter stateKeep = rest.filter stateKeep :=
        List.filter_cons_of_neg (by simp [stateKeep_false hskip])
      have hstep : pickGo w (c :: rest) none = pickGo w rest none := by
        simp only [pickGo]
        rw [if_pos hskip]
      rcases ih with ⟨h1, h2⟩ | ⟨r, hr, pre, post, hdec, hpre, hall⟩
      · left
        rw [hstep, hfc]
        exact ⟨h1, h2⟩
      · right
        refine ⟨r, ?_, pre, post, ?_, hpre, ?_⟩
        · rw [hstep]; exact hr
        · rw [hfc]; exact hdec
        · rw [hfc]; exact hall
    · have hfc : (c :: rest).filter stateKeep = c :: rest.filter stateKeep :=
        List.filter_cons_of_pos (stateKeep_true hskip)
      have hstep : pickGo w (c :: rest) none = pickGo w rest (some (c, candScore w c)) := by
        simp only [pickGo]
        rw [if_neg hskip]
      right
      obtain ⟨r, hr, pre, post, hdec, hpre, hall⟩ := pickGo_from w rest c
      refine ⟨r, ?_, pre, post, ?_, hpre, ?_⟩
      · rw [hstep]; exact hr
      · rw [hfc]; exact hdec
      · rw [hfc]; exact hall

theorem jsLower_ne_empty {s : String} (h : s ≠ "") : jsLower s ≠ "" := by
  intro he
  apply h
  have hd : s.data.map Char.toLower = [] := by
    simpa [jsLower] using congrArg String.data he
  have hnil : s.data = [] := List.map_eq_nil_iff.mp hd
  cases s with
  | mk data =>
    simp at hnil
    rw [hnil]

/-- Claim C4: for every candidate list given to the generic selector,
blacklisted classes are discarded, wrong-state candidates are discarded, each
survivor scores `importance * 10 + 12 [type whitelist] + 6 [class whitelist]
+ 6 [municipality containment]`, the highest-scoring survivor is returned with
ties resolving to the earliest in response order, and if no candidate survives
the selector returns no result. -/
theorem generic_selector_spec (pc muni : String) (cands : List Candidate)
    (hm : muni ≠ "") :
    (pickBestGeneric pc muni cands = none ↔ survivors cands = []) ∧
    (∀ r, pickBestGeneric pc muni cands = some r →
      ∃ pre post, survivors cands = pre ++ r :: post ∧
        (∀ d ∈ pre, candScore (jsLower muni) d < candScore (jsLower muni) r) ∧
        (∀ d ∈ survivors cands, candScore (jsLower muni) d ≤ candScore (jsLower muni) r)) ∧
    (∀ c, candScore (jsLower muni) c
        = c.importance * 10
          + (if WHITELIST_TYPES.contains c.type then 12 else 0)
          + (if WHITELIST_CLASSES.contains c.cls then 6 else 0)
          + (if strContains (muniOf c) (jsLower muni) = true then 6 else 0)) ∧
    (∀ c, c ∈ survivors cands ↔ (c ∈ cands ∧ BLACKLIST_CLASSES.contains c.cls = false ∧
        ¬ (c.address.state ≠ "" ∧ jsLower c.address.state ≠ "jalisco"))) := by
  have hpool : pickBestGeneric pc muni cands
      = (pickGo (jsLower muni)
          (cands.filter (fun c => !(BLACKLIST_CLASSES.contains c.cls))) none).map Prod.fst := rfl
  have hsurv : survivors cands
      = (cands.filter (fun c => !(BLACKLIST_CLASSES.contains c.cls))).filter stateKeep := rfl
  refine ⟨?_, ?_, ?_, ?_⟩
  · rcases pickGo_none (jsLower muni)
        (cands.filter (fun c => !(BLACKLIST_CLASSES.contains c.cls))) with
      ⟨h1, h2⟩ | ⟨r, hr, pre, post, hdec, _, _⟩
    · rw [hpool, h1, hsurv, h2]
      simp
    · rw [hpool, hr, hsurv, hdec]
      simp
  · intro r hr
    rcases pickGo_none (jsLower muni)
        (cands.filter (fun c => !(BLACKLIST_CLASSES.contains c.cls))) with
      ⟨h1, _⟩ | ⟨r', hr', pre, post, hdec, hpre, hall⟩
    · rw [hpool, h1] at hr
      exact absurd hr (by simp)
    · rw [hpool, hr'] at hr
      have hrr : r' = r := by simpa using hr
      subst hrr
      exact ⟨pre, post, by rw [hsurv]; exact hdec, hpre, by rw [hsurv]; exact hall⟩
  · intro c
    unfold candScore
    have hcond : ((jsLower muni ≠ "" ∧ strContains (muniOf c) (jsLower muni) = true))
        ↔ (strContains (muniOf c) (jsLower muni) = true) :=
      ⟨fun h => h.2, fun h => ⟨jsLower_ne_empty hm, h⟩⟩
    rw [if_congr hcond rfl rfl]
  · intro c
    rw [hsurv, List.mem_filter, List.mem_filter]
    constructor
    · rintro ⟨⟨hc, hbl⟩, hst⟩
      refine ⟨hc, by simpa using hbl, ?_⟩
      intro habs
      rw [stateKeep_false habs] at hst
      exact absurd hst (by simp)
    · rintro ⟨hc, hbl, hst⟩
      have hbl' : c.cls ∉ BLACKLIST_CLASSES := by simpa using hbl
      exact ⟨⟨hc, by simpa using hbl'⟩, stateKeep_true hst⟩

/-! ### Helper lemmas: the transport -/

theorem goFetch_all_err (responses : Nat → HttpResp) (jitter : Nat → Nat) :
    ∀ (g a : Nat), a + g = MAX_RETRIES + 1 →
      (∀ n, a ≤ n → n ≤ MAX_RETRIES + 1 → ¬ isOkStatus (responses n)) →
      (goFetch responses jitter g a).1 = ⟨false, (responses (MAX_RETRIES + 1)).status, []⟩ ∧
      (goFetch responses jitter g a).2.length = g := by
  have hM : MAX_RETRIES = 5 := rfl
  intro g
  induction g with
  | zero =>
    intro a ha herr
    have ha6 : a = MAX_RETRIES + 1 := by omega
    subst ha6
    have he := herr (MAX_RETRIES + 1) le_rfl le_rfl
    unfold goFetch
    dsimp only
    split_ifs with h1
    · exact ⟨rfl, rfl⟩
    · exact ⟨rfl, rfl⟩
  | succ g ih =>
    intro a ha herr
    have herra : ¬ isOkStatus (responses a) := herr a le_rfl (by omega)
    have hale : a ≤ MAX_RETRIES := by omega
    have hrec := ih (a + 1) (by omega) (fun n h1 h2 => herr n (by omega) h2)
    unfold goFetch
    dsimp only
    by_cases ht : isThrottle (responses a)
    · rw [if_pos ht, if_pos hale]
      exact ⟨hrec.1, by simp [hrec.2]⟩
    · rw [if_neg ht, if_pos herra, if_pos hale]
      exact ⟨hrec.1, by simp [hrec.2]⟩

/-- Claim C5: on HTTP 429/403 the transport sleeps exactly the Retry-After
duration when one is present, and `min(30s, 2^attempt s) + jitter < 500 ms`
otherwise; on any other error status it sleeps
`min(20s, 2^attempt * 0.5 s) + jitter < 300 ms`; retries continue up to the
cap of `MAX_RETRIES = 5`, and when every attempt fails the transport returns
`ok = false` with an empty candidate list (after exactly 5 backoff sleeps)
instead of raising. -/
theorem transport_backoff_spec (responses : Nat → HttpResp) (jitter : Nat → Nat) :
    (∀ a, 1 ≤ a → a ≤ MAX_RETRIES → isThrottle (responses a) →
      (responses a).retryAfter ≠ 0 →
      (nominatimFetch responses jitter a).2.head? = some ((responses a).retryAfter * 1000)) ∧
    (∀ a, 1 ≤ a → a ≤ MAX_RETRIES → isThrottle (responses a) →
      (responses a).retryAfter = 0 → jitter a < 500 →
      ∃ j, j < 500 ∧ (nominatimFetch responses jitter a).2.head?
        = some (min 30000 (2 ^ a * 1000) + j)) ∧
    (∀ a, 1 ≤ a → a ≤ MAX_RETRIES → ¬ isThrottle (responses a) →
      ¬ isOkStatus (responses a) → jitter a < 300 →
      ∃ j, j < 300 ∧ (nominatimFetch responses jitter a).2.head?
        = some (min 20000 (2 ^ a * 500) + j)) ∧
    ((∀ n, 1 ≤ n → n ≤ MAX_RETRIES + 1 → ¬ isOkStatus (responses n)) →
      (nominatimFetch responses jitter 1).1
        = ⟨false, (responses (MAX_RETRIES + 1)).status, []⟩ ∧
      (nominatimFetch responses jitter 1).2.length = MAX_RETRIES) := by
  have hM : MAX_RETRIES = 5 := rfl
  have hgas : ∀ a, 1 ≤ a → a ≤ MAX_RETRIES →
      MAX_RETRIES + 1 - a = (MAX_RETRIES - a) + 1 := by omega
  refine ⟨?_, ?_, ?_, ?_⟩
  · intro a h1 h2 ht hra
    unfold nominatimFetch
    rw [hgas a h1 h2]
    unfold goFetch
    dsimp only
    rw [if_pos ht, if_pos h2]
    simp only [List.head?_cons]
    unfold throttleBackoff
    rw [if_pos hra]
  · intro a h1 h2 ht hra hj
    refine ⟨jitter a, hj, ?_⟩
    unfold nominatimFetch
    rw [hgas a h1 h2]
    unfold goFetch
    dsimp only
    rw [if_pos ht, if_pos h2]
    simp only [List.head?_cons]
    unfold throttleBackoff
    rw [if_neg (by simp [hra])]
  · intro a h1 h2 ht hok hj
    refine ⟨jitter a, hj, ?_⟩
    unfold nominatimFetch
    rw [hgas a h1 h2]
    unfold goFetch
    dsimp only
    rw [if_neg ht, if_pos hok, if_pos h2]
    simp only [List.head?_cons]
    rfl
  · intro herr
    have h5 : MAX_RETRIES + 1 - 1 = MAX_RETRIES := by omega
    unfold nominatimFetch
    rw [h5]
    exact goFetch_all_err responses jitter MAX_RETRIES 1 (by omega) herr

/-- Witness for C5: a transport whose every attempt is an HTTP 500 sleeps the
error backoff after the first attempt and gives up with `ok = false` and no
candidates after 5 retries. -/
theorem transport_backoff_spec_witness :
    (∃ j, j < 300 ∧ (nominatimFetch resp500 zeroJit 1).2.head?
      = some (min 20000 (2 ^ 1 * 500) + j)) ∧
    (nominatimFetch resp500 zeroJit 1).1
      = ⟨false, (resp500 (MAX_RETRIES + 1)).status, []⟩ ∧
    (nominatimFetch resp500 zeroJit 1).2.length = MAX_RETRIES := by
  obtain ⟨-, -, hc, hd⟩ := transport_backoff_spec resp500 zeroJit
  have h3 := hc 1 (by decide) (by decide) (by decide) (by decide) (by decide)
  have h4 := hd (fun n _ _ h => absurd h.2 (show ¬ (500 : Nat) ≤ 299 by decide))
  exact ⟨h3, h4.1, h4.2⟩

/-- Witness for C4 at a concrete candidate list with a blacklisted road and a
surviving village. -/
theorem generic_selector_spec_witness :
    (pickBestGeneric "" "Tala" [candHw, candVl] = none ↔ survivors [candHw, candVl] = []) ∧
    (∀ r, pickBestGeneric "" "Tala" [candHw, candVl] = some r →
      ∃ pre post, survivors [candHw, candVl] = pre ++ r :: post ∧
        (∀ d ∈ pre, candScore (jsLower "Tala") d < candScore (jsLower "Tala") r) ∧
        (∀ d ∈ survivors [candHw, candVl],
          candScore (jsLower "Tala") d ≤ candScore (jsLower "Tala") r)) ∧
    (∀ c, candScore (jsLower "Tala") c
        = c.importance * 10
          + (if WHITELIST_TYPES.contains c.type then 12 else 0)
          + (if WHITELIST_CLASSES.contains c.cls then 6 else 0)
          + (if strContains (muniOf c) (jsLower "Tala") = true then 6 else 0)) ∧
    (∀ c, c ∈ survivors [candHw, candVl]
      ↔ (c ∈ [candHw, candVl] ∧ BLACKLIST_CLASSES.contains c.cls = false ∧
        ¬ (c.address.state ≠ "" ∧ jsLower c.address.state ≠ "jalisco"))) :=
  generic_selector_spec "" "Tala" [candHw, candVl] (by decide)

/-- Witness for C9 at a concrete row whose second strategy accepts a
suburb-type candidate by address-postcode equality. -/
theorem unknown_confidence_tier_witness :
    ∃ out, processRow [] riSb = .ok out (1 + 1) ∧
      out.confidence = "unknown" ∧ out.precision = 0 ∧ out.missReason = "" ∧
      traceFull (processRow [] riSb) = [out] ∧
      traceMiss (processRow [] riSb) = [] :=
  unknown_confidence_tier [] riSb 1 candSb (by decide) (by decide) rfl (by decide)
    (fun j hj => by interval_cases j; decide) (by decide) (by decide) rfl
    (by decide) (by decide)

end CreateCsv
